import Mathlib

/-!
Shallow embedding of the job-control core of `tsh.c` (a tiny shell with job
control), together with a verification of the specification claims about it.

The C job table is a fixed global array of 16 `struct job_t` slots; it is
modelled as a `List Job` (the operations only replace list elements, never
change the length).  The process-wide counter `nextjid` travels in the `Shell`
record.  Machine integers (`pid_t`, `int`) are modelled as `Int`; the values
involved stay far away from the 32-bit overflow boundary, so no modular
reduction is applied.  Console output is modelled as a `List String` result,
and signals sent with `kill` as a list of `(target, signal)` pairs.
-/

namespace Tsh

/-- Job states, tsh.c lines 26-29: `UNDEF 0`, `FG 1`, `BG 2`, `ST 3`. -/
inductive JobState where
  | UNDEF
  | FG
  | BG
  | ST
deriving DecidableEq

/-- `struct job_t`, tsh.c lines 48-53. -/
structure Job where
  pid : Int
  jid : Int
  state : JobState
  cmdline : String
deriving DecidableEq

/-- `clearjob`, tsh.c lines 535-541: a job record with every field zeroed. -/
def emptyJob : Job := ⟨0, 0, JobState.UNDEF, ""⟩

/-- `MAXJOBS`, tsh.c line 22. -/
def MAXJOBS : Int := 16

/-- `initjobs`, tsh.c lines 544-551: a table of 16 cleared slots. -/
def initjobs : List Job := List.replicate 16 emptyJob

/-- The shell-global mutable state touched by the job-table helpers: the
array `jobs` (tsh.c line 55) and the counter `nextjid` (line 45). -/
structure Shell where
  jobs : List Job
  nextjid : Int
deriving DecidableEq

/-- The state right after `initjobs(jobs)` in `main` (nextjid starts at 1). -/
def initShell : Shell := ⟨initjobs, 1⟩

/-- `maxjid`, tsh.c lines 554-565: largest `jid` field over all 16 slots
(cleared slots hold jid 0, so this is the largest live job id, or 0). -/
def maxjid (l : List Job) : Int :=
  l.foldl (fun m j => if j.jid > m then j.jid else m) 0

/-- Scan of `addjob`, tsh.c lines 576-590: find the first slot with pid 0,
store the new job there with `jid = nextjid++`, wrapping `nextjid` to 1 when
it exceeds `MAXJOBS`.  Returns the new table and the new `nextjid`, or `none`
when every slot is taken. -/
def addjobAux (p : Int) (st : JobState) (c : String) (njid : Int) :
    List Job → Option (List Job × Int)
  | [] => none
  | j :: rest =>
    if j.pid = 0 then
      some (⟨p, njid, st, c⟩ :: rest, if njid + 1 > MAXJOBS then 1 else njid + 1)
    else
      (addjobAux p st c njid rest).map (fun r => (j :: r.1, r.2))

/-- `addjob`, tsh.c lines 568-593.  Returns the new state and the C result
(1 = added, 0 = rejected).  The `verbose` trace (line 586) and the
"Tried to create too many jobs" diagnostic (line 591) are console output
only and play no role in any claim. -/
def addjob (s : Shell) (p : Int) (st : JobState) (c : String) : Shell × Bool :=
  if p < 1 then (s, false)
  else
    match addjobAux p st c s.nextjid s.jobs with
    | some (l, n) => (⟨l, n⟩, true)
    | none => (s, false)

/-- Scan of `deletejob`, tsh.c lines 604-610: clear the first slot whose pid
matches, or `none` when no slot matches. -/
def deletejobAux (p : Int) : List Job → Option (List Job)
  | [] => none
  | j :: rest =>
    if j.pid = p then some (emptyJob :: rest)
    else (deletejobAux p rest).map (fun l => j :: l)

/-- `deletejob`, tsh.c lines 596-612.  On success `nextjid` is recomputed as
`maxjid(jobs) + 1` over the already-cleared table. -/
def deletejob (s : Shell) (p : Int) : Shell × Bool :=
  if p < 1 then (s, false)
  else
    match deletejobAux p s.jobs with
    | some l => (⟨l, maxjid l + 1⟩, true)
    | none => (s, false)

/-- `fgpid`, tsh.c lines 615-626: pid of the first slot in state FG, else 0. -/
def fgpid (l : List Job) : Int :=
  match l.find? (fun j => decide (j.state = JobState.FG)) with
  | some j => j.pid
  | none => 0

/-- `getjobpid`, tsh.c lines 629-644: first slot whose pid matches. -/
def getjobpid (l : List Job) (p : Int) : Option Job :=
  if p < 1 then none else l.find? (fun j => decide (j.pid = p))

/-- `getjobjid`, tsh.c lines 647-662: first slot whose jid matches. -/
def getjobjid (l : List Job) (x : Int) : Option Job :=
  if x < 1 then none else l.find? (fun j => decide (j.jid = x))

/-- `pid2jid`, tsh.c lines 665-680. -/
def pid2jid (l : List Job) (p : Int) : Int :=
  if p < 1 then 0
  else
    match l.find? (fun j => decide (j.pid = p)) with
    | some j => j.jid
    | none => 0

/-- Write through a `struct job_t *` obtained from a first-match scan:
`job->state = st` updates the first slot satisfying the scan predicate and
leaves every other slot alone. -/
def setFirstState (q : Job → Bool) (st : JobState) : List Job → List Job
  | [] => []
  | j :: rest =>
    if q j then { j with state := st } :: rest
    else j :: setFirstState q st rest

/-- `listjob`, tsh.c lines 742-745: `printf("[%d] (%d) %s", jid, pid, cmdline)`.
Note there is no state word in this format. -/
def listjob (j : Job) : String :=
  "[" ++ toString j.jid ++ "] (" ++ toString j.pid ++ ") " ++ j.cmdline

/-- `listbgjobs`, tsh.c lines 709-731: print every occupied slot in state BG
(as "Running") or ST (as "Stopped"); FG and UNDEF slots print nothing. -/
def listbgjobs : List Job → String
  | [] => ""
  | j :: rest =>
    (if j.pid ≠ 0 then
      match j.state with
      | JobState.BG =>
          "[" ++ toString j.jid ++ "] (" ++ toString j.pid ++ ") " ++
            "Running " ++ j.cmdline
      | JobState.ST =>
          "[" ++ toString j.jid ++ "] (" ++ toString j.pid ++ ") " ++
            "Stopped " ++ j.cmdline
      | _ => ""
     else "") ++ listbgjobs rest

/-- `isnumber`, tsh.c lines 778-787, on the character list of the argument:
scans to the terminating NUL and fails on the first non-digit.  The empty
string trivially passes. -/
def isnumberL (cs : List Char) : Bool := cs.all Char.isDigit

/-- `isnumber` on a `String` argument. -/
def isnumber (s : String) : Bool := isnumberL s.data

/-- `atoi` on a digit-only argument (the only way `do_bgfg` calls it, after
`isnumber` has accepted the text); `atoi("")` is 0. -/
def atoiL (cs : List Char) : Int :=
  cs.foldl (fun a c => a * 10 + ((c.toNat : Int) - 48)) 0

/-- `atoi` on a `String` argument. -/
def atoi (s : String) : Int := atoiL s.data

/-- The test `'%' == argv[1][0]` in `do_bgfg`, tsh.c line 353 (an empty
argument reads the terminating NUL, which is not `'%'`). -/
def argIsJid (a : String) : Bool :=
  match a.data with
  | '%' :: _ => true
  | _ => false

/-- Signals the shell sends with `Kill`. -/
inductive OSSignal where
  | SIGCONT
  | SIGINT
  | SIGTSTP
deriving DecidableEq

/-- Result of one `do_bgfg` invocation: the job table after the call, the
lines printed, the `Kill(target, sig)` calls made, and the pid passed to
`waitfg` when the call reaches it. -/
structure BgfgRes where
  jobs : List Job
  out : List String
  sigs : List (Int × OSSignal)
  wait : Option Int
deriving DecidableEq

/-- Tail of `do_bgfg` after the target job has been resolved, tsh.c lines
378-406: the state preconditions, then `Kill(-(job->pid), SIGCONT)`, then
(for bg) the announcement and `job->state = BG`, or (for fg)
`job->state = FG` followed by `waitfg(job->pid)`.  `upd st` is the table
with the resolved slot's state overwritten by `st`. -/
def bgfgAct (isbg : Bool) (job : Job) (upd : JobState → List Job)
    (jobs : List Job) : BgfgRes :=
  if isbg && ! decide (job.state = JobState.ST) then
    ⟨jobs, ["bg error - Job is not STOPPED.\n"], [], none⟩
  else if !isbg && !(decide (job.state = JobState.ST) || decide (job.state = JobState.BG)) then
    ⟨jobs, ["fg error - Job is not STOPPED or in BACKGROUND.\n"], [], none⟩
  else if isbg then
    ⟨upd JobState.BG, [listjob job], [(-job.pid, OSSignal.SIGCONT)], none⟩
  else
    ⟨upd JobState.FG, [], [(-job.pid, OSSignal.SIGCONT)], some job.pid⟩

/-- `do_bgfg`, tsh.c lines 342-407.  `cmd` is `argv[0]` ("bg" or "fg"),
`arg` is `argv[1]` (`none` when absent). -/
def do_bgfg (cmd : String) (arg : Option String) (jobs : List Job) : BgfgRes :=
  let isbg := decide (cmd = "bg")
  match arg with
  | none => ⟨jobs, [cmd ++ " command requires PID or %jobid argument\n"], [], none⟩
  | some a =>
    if argIsJid a then
      let cs := a.data.tail
      if ! isnumberL cs then
        ⟨jobs, [cmd ++ ": argument must be a PID or %jobid\n"], [], none⟩
      else
        match getjobjid jobs (atoiL cs) with
        | none => ⟨jobs, ["no such job\n"], [], none⟩
        | some job =>
            bgfgAct isbg job
              (fun st => setFirstState (fun j => decide (j.jid = atoiL cs)) st jobs) jobs
    else
      if ! isnumberL a.data then
        ⟨jobs, [cmd ++ ": argument must be a PID or %jobid\n"], [], none⟩
      else
        match getjobpid jobs (atoiL a.data) with
        | none => ⟨jobs, ["no such process\n"], [], none⟩
        | some job =>
            bgfgAct isbg job
              (fun st => setFirstState (fun j => decide (j.pid = atoiL a.data)) st jobs) jobs

/-- `sigtstp_handler`, tsh.c lines 492-514: look up the foreground pid; when
one exists, relay SIGTSTP to its process group and set that job's state to
ST through the `getjobpid` pointer.  (When `getjobpid` would return NULL the
C code would fault on the write; that situation is unreachable, and the model
leaves the table unchanged there.) -/
def sigtstp_handler (l : List Job) : List Job :=
  let p := fgpid l
  if p = 0 then l
  else
    match getjobpid l p with
    | none => l
    | some _ => setFirstState (fun j => decide (j.pid = p)) JobState.ST l

/-- One child-status notification as reported by `waitpid(-1, &status,
WNOHANG | WUNTRACED)`: the three mutually exclusive cases `WIFEXITED`,
`WIFSIGNALED` (with `WTERMSIG`) and `WIFSTOPPED` (with `WSTOPSIG`). -/
inductive Status where
  | exited (code : Int)
  | signaled (sig : Int)
  | stopped (sig : Int)

/-- One iteration of the reap loop of `sigchld_handler`, tsh.c lines 443-462,
for the reaped `(pid, status)` pair: exited children are deleted silently,
signal-terminated children are announced (job id looked up before the
deletion) and deleted, stopped children are announced and the table is left
untouched. -/
def sigchld_step (s : Shell) (p : Int) : Status → Shell × List String
  | Status.exited _ => ((deletejob s p).1, [])
  | Status.stopped sig =>
      (s, ["Job [" ++ toString (pid2jid s.jobs p) ++ "] (" ++ toString p ++
            ") stopped by signal " ++ toString sig ++ "\n"])
  | Status.signaled sig =>
      ((deletejob s p).1,
        ["Job [" ++ toString (pid2jid s.jobs p) ++ "] (" ++ toString p ++
          ") terminated by signal " ++ toString sig ++ "\n"])

/-- The whole `sigchld_handler` drain loop over the pending notifications. -/
def sigchld_handler (s : Shell) : List (Int × Status) → Shell × List String
  | [] => (s, [])
  | (p, st) :: rest =>
    let r := sigchld_step s p st
    let r' := sigchld_handler r.1 rest
    (r'.1, r.2 ++ r'.2)

/-- The parent branch of `eval` for a background command, tsh.c lines
230-235: `addjob(jobs, pid, BG, cmdline)` followed by
`listjob(getjobpid(jobs, pid))`.  (When `addjob` failed, `getjobpid` returns
NULL and the C code would fault inside `listjob`; the model prints nothing
there.) -/
def evalSpawnBG (s : Shell) (p : Int) (c : String) : Shell × List String :=
  let r := addjob s p JobState.BG c
  match getjobpid r.1.jobs p with
  | some j => (r.1, [listjob j])
  | none => (r.1, [])

/-- Human-readable state word used by the listing format of the spec
(section 6): Running / Foreground / Stopped. -/
def stateName : JobState → String
  | JobState.FG => "Foreground"
  | JobState.BG => "Running"
  | JobState.ST => "Stopped"
  | JobState.UNDEF => ""

/-- Modelled from the spec's words (sections 4.4 and 6), for comparison with
`listbgjobs`: the `jobs` built-in prints exactly the live jobs (pid not 0)
whose state is Background or Stopped, one line per job carrying job id,
process id, human-readable state, and original command text; a Foreground
job is omitted. -/
def jobsListingSpec (l : List Job) : String :=
  (l.filterMap (fun j =>
    if j.pid ≠ 0 ∧ (j.state = JobState.BG ∨ j.state = JobState.ST) then
      some ("[" ++ toString j.jid ++ "] (" ++ toString j.pid ++ ") " ++
        stateName j.state ++ " " ++ j.cmdline)
    else none)).foldr (fun a b => a ++ b) ""

/-- Number of slots whose pid equals `p`. -/
def countPid (l : List Job) (p : Int) : Nat :=
  (l.filter (fun j => decide (j.pid = p))).length

/-- Number of slots in state FG. -/
def fgCount (l : List Job) : Nat :=
  (l.filter (fun j => decide (j.state = JobState.FG))).length

/-- Every FG slot carries pid `p`. -/
def FGonly (l : List Job) (p : Int) : Prop :=
  ∀ j ∈ l, j.state = JobState.FG → j.pid = p

/-- Whole-interpreter state for the reachability relation: the shell globals
plus the pid the main control line is currently blocked on inside `waitfg`
(`none` when control is at the prompt). -/
structure SState where
  shell : Shell
  waiting : Option Int

/-- The table-mutating transitions of the shell, as the program actually
performs them.  Main-line transitions (`eval` spawning a job, `do_bgfg`)
require control to be at the prompt; `eval` of a foreground command and a
successful `fg` end inside `waitfg`, recorded in `waiting`.  Handler
transitions (`sigchld_handler` processing one notification,
`sigtstp_handler`) can interleave at any point; `waitDone` is `waitfg`
observing that its pid is no longer the foreground pid (tsh.c line 417). -/
inductive Step : SState → SState → Prop where
  | evalBG (s : SState) (p : Int) (c : String) (h : s.waiting = none) :
      Step s ⟨(addjob s.shell p JobState.BG c).1, none⟩
  | evalFG (s : SState) (p : Int) (c : String) (h : s.waiting = none) :
      Step s ⟨(addjob s.shell p JobState.FG c).1, some p⟩
  | bgfg (s : SState) (cmd : String) (arg : Option String)
      (hcmd : cmd = "bg" ∨ cmd = "fg") (h : s.waiting = none) :
      Step s ⟨⟨(do_bgfg cmd arg s.shell.jobs).jobs, s.shell.nextjid⟩,
              (do_bgfg cmd arg s.shell.jobs).wait⟩
  | chld (s : SState) (p : Int) (st : Status) :
      Step s ⟨(sigchld_step s.shell p st).1, s.waiting⟩
  | tstp (s : SState) :
      Step s ⟨⟨sigtstp_handler s.shell.jobs, s.shell.nextjid⟩, s.waiting⟩
  | waitDone (s : SState) (p : Int) (h : s.waiting = some p)
      (hfg : fgpid s.shell.jobs ≠ p) :
      Step s ⟨s.shell, none⟩

/-- States reachable from the freshly initialized shell. -/
def Reachable (s : SState) : Prop :=
  Relation.ReflTransGen Step ⟨initShell, none⟩ s

/-- The inductive invariant behind claim C1. -/
def Inv (s : SState) : Prop :=
  fgCount s.shell.jobs ≤ 1 ∧
  (s.waiting = none → fgCount s.shell.jobs = 0) ∧
  (∀ p, s.waiting = some p → FGonly s.shell.jobs p)

/-- `(addjob · pid BG "x\n").fst`: one background spawn, used to build
concrete reachable states. -/
def addB (s : Shell) (p : Int) : Shell := (addjob s p JobState.BG "x\n").1

/-- `(deletejob · pid).fst`: one reap, used to build concrete reachable
states (this is `sigchld_step` for an exited child). -/
def delB (s : Shell) (p : Int) : Shell := (deletejob s p).1

/-- Fifteen background jobs spawned in a row: slots 0-14, jids 1-15,
`nextjid` 16. -/
def c4base : Shell :=
  ([101, 102, 103, 104, 105, 106, 107, 108, 109, 110, 111, 112, 113,
    114, 115] : List Int).foldl addB initShell

/-- ... thirteen of them reaped: live jobs are pid 101 (jid 1) and pid 115
(jid 15); every deletion recomputed `nextjid = maxjid + 1 = 16`. -/
def c4afterDel : Shell :=
  ([102, 103, 104, 105, 106, 107, 108, 109, 110, 111, 112, 113, 114] :
    List Int).foldl delB c4base

/-- ... plus one more spawn, which takes jid 16 and wraps `nextjid` to 1
while the job with jid 1 (pid 101) is still live. -/
def c4pre : Shell := addB c4afterDel 116

/-- Sixteen background jobs spawned in a row: table full, jids 1-16,
`nextjid` wrapped to 1. -/
def c3full : Shell :=
  ([201, 202, 203, 204, 205, 206, 207, 208, 209, 210, 211, 212, 213,
    214, 215, 216] : List Int).foldl addB initShell

/-- ... then the job with jid 1 is reaped: `deletejob` recomputes
`nextjid = maxjid + 1 = 17` with no wrap. -/
def c3state : Shell := delB c3full 201

/-- A table holding one background job, pid 7, jid 1. -/
def wtable : List Job := Job.mk 7 1 JobState.BG "sleep 5 &\n" :: List.replicate 15 emptyJob

/-- A table holding one foreground job, pid 7, jid 1. -/
def wtableFG : List Job := Job.mk 7 1 JobState.FG "sleep 5\n" :: List.replicate 15 emptyJob

/-- A table holding one stopped job, pid 7, jid 3. -/
def wtableST : List Job := Job.mk 7 3 JobState.ST "sleep 9\n" :: List.replicate 15 emptyJob

/-- A shell state holding one background job, pid 7, jid 1. -/
def wshell : Shell := ⟨wtable, 2⟩

/-! ## Helper lemmas about the table scans -/

theorem deletejobAux_eq_none {p : Int} {l : List Job}
    (h : ∀ j ∈ l, j.pid ≠ p) : deletejobAux p l = none := by
  induction l with
  | nil => rfl
  | cons j rest ih =>
    have hj : ¬ j.pid = p := h j (by simp)
    simp [deletejobAux, hj, ih (fun x hx => h x (by simp [hx]))]

theorem countPid_cons (j : Job) (rest : List Job) (p : Int) :
    countPid (j :: rest) p =
      (if j.pid = p then 1 else 0) + countPid rest p := by
  by_cases hj : j.pid = p
  · simp [countPid, List.filter, hj, Nat.add_comm]
  · simp [countPid, List.filter, hj]

theorem deletejobAux_of_countPid_one {p : Int} (hp : 1 ≤ p) :
    ∀ l : List Job, countPid l p = 1 →
      ∃ l', deletejobAux p l = some l' ∧ countPid l' p = 0 := by
  intro l
  induction l with
  | nil => intro h; simp [countPid] at h
  | cons j rest ih =>
    intro h
    rw [countPid_cons] at h
    by_cases hj : j.pid = p
    · refine ⟨emptyJob :: rest, by simp [deletejobAux, hj], ?_⟩
      rw [countPid_cons]
      have h0 : ¬ (emptyJob.pid = p) := by simp [emptyJob]; omega
      simp [h0]
      simp [hj] at h
      omega
    · simp [hj] at h
      obtain ⟨l', hl', hc⟩ := ih h
      refine ⟨j :: l', by simp [deletejobAux, hj, hl'], ?_⟩
      rw [countPid_cons]
      simp [hj, hc]

/-! ## C9: rejection behaviour of addjob and deletejob -/

/-- C9: for every job-table state and pid `p`: if `p < 1`, both `addjob` and
`deletejob` return false and leave the state (table and `nextjid` counter)
unchanged; and if `p` is not the pid of any slot, `deletejob` returns false
and leaves the state unchanged. -/
theorem claim_C9_invalid_pid_rejected :
    (∀ (s : Shell) (p : Int) (st : JobState) (c : String),
        p < 1 → addjob s p st c = (s, false)) ∧
    (∀ (s : Shell) (p : Int), p < 1 → deletejob s p = (s, false)) ∧
    (∀ (s : Shell) (p : Int), 1 ≤ p → (∀ j ∈ s.jobs, j.pid ≠ p) →
        deletejob s p = (s, false)) := by
  refine ⟨?_, ?_, ?_⟩
  · intro s p st c hp
    simp [addjob, hp]
  · intro s p hp
    simp [deletejob, hp]
  · intro s p hp hnone
    have h1 : ¬ (p < 1) := by omega
    simp [deletejob, h1, deletejobAux_eq_none hnone]

/-- Witness for C9 at concrete inputs: pid 0 insert, pid -3 delete, and a
delete of the absent pid 9 are all rejected without touching `wshell`. -/
theorem claim_C9_witness :
    addjob wshell 0 JobState.BG "x\n" = (wshell, false) ∧
    deletejob wshell (-3) = (wshell, false) ∧
    deletejob wshell 9 = (wshell, false) :=
  ⟨claim_C9_invalid_pid_rejected.1 wshell 0 JobState.BG "x\n" (by decide),
   claim_C9_invalid_pid_rejected.2.1 wshell (-3) (by decide),
   claim_C9_invalid_pid_rejected.2.2 wshell 9 (by decide) (by decide)⟩

/-! ## C10: `bg %` / `fg %` pass the numeric check and fail job lookup -/

/-- C10: `isnumber` accepts the empty string, so the argument `%` (marker
with no digits) passes the syntactic check in `do_bgfg`; the parsed job id
`atoi("") = 0` then resolves to no job (`getjobjid` rejects ids below 1), so
for every table the command prints `no such job` and changes nothing. -/
theorem claim_C10_percent_only_argument :
    isnumber "" = true ∧
    (∀ l : List Job, getjobjid l 0 = none) ∧
    (∀ (cmd : String) (l : List Job),
        do_bgfg cmd (some "%") l = ⟨l, ["no such job\n"], [], none⟩) := by
  refine ⟨rfl, ?_, ?_⟩
  · intro l
    simp [getjobjid]
  · intro cmd l
    have h1 : argIsJid "%" = true := rfl
    have h2 : ("%" : String).data.tail = [] := rfl
    simp [do_bgfg, h1, h2, isnumberL, atoiL, getjobjid]

/-! ## C7: validation order and diagnostics of do_bgfg -/

/-- C7: `do_bgfg` validates its target in the order: argument present, then
syntactically numeric (the digits after `%` for a job id, the whole argument
for a pid), then resolving to a job (by jid for `%`-form, by pid for bare
form).  The first failing check prints its specific diagnostic and returns
with the table unchanged, no signal sent and no `waitfg`; in particular a
missing argument prints `<cmd> command requires PID or %jobid argument`. -/
theorem claim_C7_validation_order :
    (∀ (cmd : String) (l : List Job),
        do_bgfg cmd none l =
          ⟨l, [cmd ++ " command requires PID or %jobid argument\n"], [], none⟩) ∧
    (∀ l : List Job,
        do_bgfg "bg" none l =
          ⟨l, ["bg command requires PID or %jobid argument\n"], [], none⟩) ∧
    (∀ (cmd a : String) (l : List Job),
        argIsJid a = true → isnumberL a.data.tail = false →
        do_bgfg cmd (some a) l =
          ⟨l, [cmd ++ ": argument must be a PID or %jobid\n"], [], none⟩) ∧
    (∀ (cmd a : String) (l : List Job),
        argIsJid a = false → isnumberL a.data = false →
        do_bgfg cmd (some a) l =
          ⟨l, [cmd ++ ": argument must be a PID or %jobid\n"], [], none⟩) ∧
    (∀ (cmd a : String) (l : List Job),
        argIsJid a = true → isnumberL a.data.tail = true →
        getjobjid l (atoiL a.data.tail) = none →
        do_bgfg cmd (some a) l = ⟨l, ["no such job\n"], [], none⟩) ∧
    (∀ (cmd a : String) (l : List Job),
        argIsJid a = false → isnumberL a.data = true →
        getjobpid l (atoiL a.data) = none →
        do_bgfg cmd (some a) l = ⟨l, ["no such process\n"], [], none⟩) := by
  refine ⟨?_, ?_, ?_, ?_, ?_, ?_⟩
  · intro cmd l
    simp [do_bgfg]
  · intro l
    simp [do_bgfg]
  · intro cmd a l hjid hnum
    simp [do_bgfg, hjid, hnum]
  · intro cmd a l hjid hnum
    simp [do_bgfg, hjid, hnum]
  · intro cmd a l hjid hnum hfind
    simp [do_bgfg, hjid, hnum, hfind]
  · intro cmd a l hjid hnum hfind
    simp [do_bgfg, hjid, hnum, hfind]

/-- Witness for C7: concrete instances of each validation failure on the
one-background-job table `wtable`. -/
theorem claim_C7_witness :
    do_bgfg "bg" none wtable =
      ⟨wtable, ["bg" ++ " command requires PID or %jobid argument\n"], [], none⟩ ∧
    do_bgfg "bg" (some "%x") wtable =
      ⟨wtable, ["bg" ++ ": argument must be a PID or %jobid\n"], [], none⟩ ∧
    do_bgfg "fg" (some "abc") wtable =
      ⟨wtable, ["fg" ++ ": argument must be a PID or %jobid\n"], [], none⟩ ∧
    do_bgfg "bg" (some "%2") wtable = ⟨wtable, ["no such job\n"], [], none⟩ ∧
    do_bgfg "fg" (some "8") wtable = ⟨wtable, ["no such process\n"], [], none⟩ :=
  ⟨claim_C7_validation_order.1 "bg" wtable,
   claim_C7_validation_order.2.2.1 "bg" "%x" wtable (by decide) (by decide),
   claim_C7_validation_order.2.2.2.1 "fg" "abc" wtable (by decide) (by decide),
   claim_C7_validation_order.2.2.2.2.1 "bg" "%2" wtable (by decide) (by decide)
     (by decide),
   claim_C7_validation_order.2.2.2.2.2 "fg" "8" wtable (by decide) (by decide)
     (by decide)⟩

/-! ## C6: state preconditions of bg and fg -/

/-- C6: when the target of `bg` resolves to a job that is not Stopped, or the
target of `fg` resolves to a job that is neither Stopped nor Background, a
diagnostic is printed and the command aborts: no signal is sent, no `waitfg`
is entered, and the job table is returned unchanged. -/
theorem claim_C6_state_preconditions :
    (∀ (a : String) (l : List Job) (job : Job),
        argIsJid a = true → isnumberL a.data.tail = true →
        getjobjid l (atoiL a.data.tail) = some job →
        job.state ≠ JobState.ST →
        do_bgfg "bg" (some a) l =
          ⟨l, ["bg error - Job is not STOPPED.\n"], [], none⟩) ∧
    (∀ (a : String) (l : List Job) (job : Job),
        argIsJid a = false → isnumberL a.data = true →
        getjobpid l (atoiL a.data) = some job →
        job.state ≠ JobState.ST →
        do_bgfg "bg" (some a) l =
          ⟨l, ["bg error - Job is not STOPPED.\n"], [], none⟩) ∧
    (∀ (a : String) (l : List Job) (job : Job),
        argIsJid a = true → isnumberL a.data.tail = true →
        getjobjid l (atoiL a.data.tail) = some job →
        job.state ≠ JobState.ST → job.state ≠ JobState.BG →
        do_bgfg "fg" (some a) l =
          ⟨l, ["fg error - Job is not STOPPED or in BACKGROUND.\n"], [], none⟩) ∧
    (∀ (a : String) (l : List Job) (job : Job),
        argIsJid a = false → isnumberL a.data = true →
        getjobpid l (atoiL a.data) = some job →
        job.state ≠ JobState.ST → job.state ≠ JobState.BG →
        do_bgfg "fg" (some a) l =
          ⟨l, ["fg error - Job is not STOPPED or in BACKGROUND.\n"], [], none⟩) := by
  refine ⟨?_, ?_, ?_, ?_⟩
  · intro a l job hjid hnum hfind hst
    simp [do_bgfg, hjid, hnum, hfind, bgfgAct, hst]
  · intro a l job hjid hnum hfind hst
    simp [do_bgfg, hjid, hnum, hfind, bgfgAct, hst]
  · intro a l job hjid hnum hfind hst hbg
    simp [do_bgfg, hjid, hnum, hfind, bgfgAct, hst, hbg]
  · intro a l job hjid hnum hfind hst hbg
    simp [do_bgfg, hjid, hnum, hfind, bgfgAct, hst, hbg]

/-- Witness for C6: on `wtable` (one Background job, jid 1, pid 7), `bg %1`
and `bg 7` hit the not-Stopped diagnostic; on `wtableFG` (one Foreground
job), `fg %1` hits the not-Stopped-nor-Background diagnostic. -/
theorem claim_C6_witness :
    do_bgfg "bg" (some "%1") wtable =
      ⟨wtable, ["bg error - Job is not STOPPED.\n"], [], none⟩ ∧
    do_bgfg "bg" (some "7") wtable =
      ⟨wtable, ["bg error - Job is not STOPPED.\n"], [], none⟩ ∧
    do_bgfg "fg" (some "%1") wtableFG =
      ⟨wtableFG, ["fg error - Job is not STOPPED or in BACKGROUND.\n"], [], none⟩ :=
  ⟨claim_C6_state_preconditions.1 "%1" wtable (Job.mk 7 1 JobState.BG "sleep 5 &\n")
      (by decide) (by decide) (by decide) (by decide),
   claim_C6_state_preconditions.2.1 "7" wtable (Job.mk 7 1 JobState.BG "sleep 5 &\n")
      (by decide) (by decide) (by decide) (by decide),
   claim_C6_state_preconditions.2.2.1 "%1" wtableFG (Job.mk 7 1 JobState.FG "sleep 5\n")
      (by decide) (by decide) (by decide) (by decide) (by decide)⟩

/-! ## String helpers -/

theorem str_empty_append (s : String) : "" ++ s = s := rfl

theorem append_running (X z : String) :
    X ++ "Running" ++ " " ++ z = X ++ "Running " ++ z := by
  rw [String.append_assoc X "Running" " "]
  rfl

theorem append_stopped (X z : String) :
    X ++ "Stopped" ++ " " ++ z = X ++ "Stopped " ++ z := by
  rw [String.append_assoc X "Stopped" " "]
  rfl

/-! ## C8: the jobs listing -/

/-- C8: `listbgjobs` prints exactly the live jobs (pid not 0) whose state is
Background or Stopped, one line per job carrying job id, process id,
human-readable state and original command text, and omits a Foreground job:
it coincides with the listing spelled out from the spec's words. -/
theorem claim_C8_jobs_listing : ∀ l : List Job, listbgjobs l = jobsListingSpec l := by
  intro l
  induction l with
  | nil => rfl
  | cons j rest ih =>
    rcases j with ⟨jp, jj, jst, jc⟩
    by_cases hp : jp = 0
    · cases jst <;>
        simp [listbgjobs, jobsListingSpec, List.filterMap_cons, hp, str_empty_append, ih]
    · cases jst with
      | UNDEF =>
          simp [listbgjobs, jobsListingSpec, List.filterMap_cons, hp, str_empty_append]
          exact ih
      | FG =>
          simp [listbgjobs, jobsListingSpec, List.filterMap_cons, hp, str_empty_append]
          exact ih
      | BG =>
          simp [listbgjobs, jobsListingSpec, List.filterMap_cons, hp, stateName, ih]
          rw [append_running]
      | ST =>
          simp [listbgjobs, jobsListingSpec, List.filterMap_cons, hp, stateName, ih]
          rw [append_stopped]

/-! ## C5: the job-announcement line -/

/-- C5 fails on the code: the announcement printed for `sleep 5 &` spawned
as job 1 with pid 42 is `[1] (42) sleep 5 &`, with no `Running` state word
(the claimed `[1] (42) Running sleep 5 &` is not what `listjob` emits). -/
theorem claim_C5_counterexample :
    (evalSpawnBG initShell 42 "sleep 5 &\n").2 = ["[1] (42) sleep 5 &\n"] ∧
    (evalSpawnBG initShell 42 "sleep 5 &\n").2 ≠ ["[1] (42) Running sleep 5 &\n"] :=
  ⟨by decide, by decide⟩

/-- When the scan of `addjob` inserts `⟨p, njid, st, c⟩` into a table holding
no slot with pid `p`, the first-match pid scan of the new table finds exactly
the inserted job. -/
theorem addjobAux_find?_fresh {p : Int} {st : JobState} {c : String} {njid : Int} :
    ∀ {l l' : List Job} {n : Int}, addjobAux p st c njid l = some (l', n) →
      (∀ jb ∈ l, jb.pid ≠ p) →
      l'.find? (fun j => decide (j.pid = p)) = some (Job.mk p njid st c) := by
  intro l
  induction l with
  | nil => intro l' n h _; simp [addjobAux] at h
  | cons a rest ih =>
    intro l' n h hfresh
    by_cases ha : a.pid = 0
    · simp [addjobAux, ha] at h
      rcases h with ⟨rfl, rfl⟩
      exact List.find?_cons_of_pos _ (by simp)
    · cases haux : addjobAux p st c njid rest with
      | none => simp [addjobAux, ha, haux] at h
      | some r =>
        rcases r with ⟨l2, n2⟩
        simp [addjobAux, ha, haux] at h
        rcases h with ⟨rfl, rfl⟩
        rw [List.find?_cons_of_neg _ (by simp [hfresh a (by simp)])]
        exact ih haux (fun jb hjb => hfresh jb (by simp [hjb]))

/-- C5 amended: every job-announcement line has the format
`[<job_id>] (<process_id>) <original_command_text>` with no State field.
Spawning a background command with a fresh pid from any shell state
announces it with the job id the table assigns (`nextjid`), the child pid
and the verbatim command text; a successful `bg` (either addressing form)
re-announces the resumed job's id, pid and command text in the same format;
and in particular `sleep 5 &` spawned from the fresh shell is announced as
`[1] (42) sleep 5 &`. -/
theorem claim_C5_amended :
    (∀ (s : Shell) (p : Int) (c : String),
        1 ≤ p → (∀ jb ∈ s.jobs, jb.pid ≠ p) →
        (addjob s p JobState.BG c).2 = true →
        (evalSpawnBG s p c).2 =
          ["[" ++ toString s.nextjid ++ "] (" ++ toString p ++ ") " ++ c]) ∧
    (∀ (a : String) (l : List Job) (job : Job),
        argIsJid a = true → isnumberL a.data.tail = true →
        getjobjid l (atoiL a.data.tail) = some job →
        job.state = JobState.ST →
        (do_bgfg "bg" (some a) l).out =
          ["[" ++ toString job.jid ++ "] (" ++ toString job.pid ++ ") " ++
            job.cmdline]) ∧
    (∀ (a : String) (l : List Job) (job : Job),
        argIsJid a = false → isnumberL a.data = true →
        getjobpid l (atoiL a.data) = some job →
        job.state = JobState.ST →
        (do_bgfg "bg" (some a) l).out =
          ["[" ++ toString job.jid ++ "] (" ++ toString job.pid ++ ") " ++
            job.cmdline]) ∧
    (evalSpawnBG initShell 42 "sleep 5 &\n").2 = ["[1] (42) sleep 5 &\n"] := by
  refine ⟨?_, ?_, ?_, by decide⟩
  · intro s p c hp hfresh hsucc
    have hp' : ¬ (p < 1) := by omega
    cases haux : addjobAux p JobState.BG c s.nextjid s.jobs with
    | none => simp [addjob, hp', haux] at hsucc
    | some r =>
      rcases r with ⟨l', n⟩
      have hfind := addjobAux_find?_fresh haux hfresh
      simp [evalSpawnBG, addjob, hp', haux, getjobpid, hfind, listjob]
  · intro a l job hjid hnum hfind hst
    simp [do_bgfg, hjid, hnum, hfind, bgfgAct, hst, listjob]
  · intro a l job hjid hnum hfind hst
    simp [do_bgfg, hjid, hnum, hfind, bgfgAct, hst, listjob]

/-- Witness for C5 (amended): spawning pid 9 on `wshell` (whose counter is
at 2) announces `[2] (9) cat &`, and `bg %3` / `bg 7` on the stopped job of
`wtableST` (jid 3, pid 7) both re-announce `[3] (7) sleep 9`. -/
theorem claim_C5_witness :
    (evalSpawnBG wshell 9 "cat &\n").2 = ["[2] (9) cat &\n"] ∧
    (do_bgfg "bg" (some "%3") wtableST).out = ["[3] (7) sleep 9\n"] ∧
    (do_bgfg "bg" (some "7") wtableST).out = ["[3] (7) sleep 9\n"] :=
  ⟨claim_C5_amended.1 wshell 9 "cat &\n" (by decide) (by decide) (by decide),
   claim_C5_amended.2.1 "%3" wtableST (Job.mk 7 3 JobState.ST "sleep 9\n")
     (by decide) (by decide) (by decide) (by decide),
   claim_C5_amended.2.2.1 "7" wtableST (Job.mk 7 3 JobState.ST "sleep 9\n")
     (by decide) (by decide) (by decide) (by decide)⟩

/-! ## C2: the child-status handler -/

/-- C2 fails on the code: a stop notification for the background job with
pid 7 prints the stop notice but leaves the shell state completely
unchanged — the job is still present with state BG, not ST (the handler
never writes the Stopped state; only `sigtstp_handler` does). -/
theorem claim_C2_counterexample :
    (sigchld_step wshell 7 (Status.stopped 20)).1 = wshell ∧
    (sigchld_step wshell 7 (Status.stopped 20)).2 =
      ["Job [1] (7) stopped by signal 20\n"] ∧
    getjobpid (sigchld_step wshell 7 (Status.stopped 20)).1.jobs 7 =
      some (Job.mk 7 1 JobState.BG "sleep 5 &\n") ∧
    JobState.BG ≠ JobState.ST :=
  ⟨by decide, by decide, by decide, by decide⟩

/-- C2 amended: for every notification processed by the child-status
handler: an exited child's job is removed silently; a signal-terminated
child's job is removed after a notice carrying its job id, pid and signal
number; a stopped child produces a notice carrying job id, pid and stopping
signal number and the table is left entirely unchanged — in particular the
job remains present, and its state is not updated by this handler (the
keyboard-stop handler performs the Stopped update). -/
theorem claim_C2_amended :
    (∀ (s : Shell) (p c : Int), 1 ≤ p → countPid s.jobs p = 1 →
        countPid (sigchld_step s p (Status.exited c)).1.jobs p = 0 ∧
        (sigchld_step s p (Status.exited c)).2 = []) ∧
    (∀ (s : Shell) (p sig : Int), 1 ≤ p → countPid s.jobs p = 1 →
        countPid (sigchld_step s p (Status.signaled sig)).1.jobs p = 0 ∧
        (sigchld_step s p (Status.signaled sig)).2 =
          ["Job [" ++ toString (pid2jid s.jobs p) ++ "] (" ++ toString p ++
            ") terminated by signal " ++ toString sig ++ "\n"]) ∧
    (∀ (s : Shell) (p sig : Int),
        (sigchld_step s p (Status.stopped sig)).1 = s ∧
        (sigchld_step s p (Status.stopped sig)).2 =
          ["Job [" ++ toString (pid2jid s.jobs p) ++ "] (" ++ toString p ++
            ") stopped by signal " ++ toString sig ++ "\n"]) := by
  have hdel : ∀ (s : Shell) (p : Int), 1 ≤ p → countPid s.jobs p = 1 →
      countPid (deletejob s p).1.jobs p = 0 := by
    intro s p hp hc
    obtain ⟨l', hl', h0⟩ := deletejobAux_of_countPid_one hp s.jobs hc
    simp [deletejob, show ¬ (p < 1) by omega, hl', h0]
  refine ⟨?_, ?_, ?_⟩
  · intro s p c hp hc
    exact ⟨hdel s p hp hc, rfl⟩
  · intro s p sig hp hc
    exact ⟨hdel s p hp hc, rfl⟩
  · intro s p sig
    exact ⟨rfl, rfl⟩

/-- Witness for C2 (amended): reaping the exited child with pid 7 removes
its job from `wshell` and prints nothing. -/
theorem claim_C2_witness :
    countPid (sigchld_step wshell 7 (Status.exited 0)).1.jobs 7 = 0 ∧
    (sigchld_step wshell 7 (Status.exited 0)).2 = [] :=
  claim_C2_amended.1 wshell 7 0 (by decide) (by decide)

/-! ## Reachability of the concrete states used for C3 and C4 -/

theorem reachable_addB {s : Shell} (h : Reachable ⟨s, none⟩) (p : Int) :
    Reachable ⟨addB s p, none⟩ :=
  Relation.ReflTransGen.tail h (Step.evalBG ⟨s, none⟩ p "x\n" rfl)

theorem reachable_delB {s : Shell} (h : Reachable ⟨s, none⟩) (p : Int) :
    Reachable ⟨delB s p, none⟩ :=
  Relation.ReflTransGen.tail h (Step.chld ⟨s, none⟩ p (Status.exited 0))

theorem reachable_foldl_addB (ps : List Int) {s : Shell}
    (h : Reachable ⟨s, none⟩) : Reachable ⟨ps.foldl addB s, none⟩ := by
  induction ps generalizing s with
  | nil => exact h
  | cons p rest ih => exact ih (reachable_addB h p)

theorem reachable_foldl_delB (ps : List Int) {s : Shell}
    (h : Reachable ⟨s, none⟩) : Reachable ⟨ps.foldl delB s, none⟩ := by
  induction ps generalizing s with
  | nil => exact h
  | cons p rest ih => exact ih (reachable_delB h p)

/-! ## C3: the nextjid compaction relation -/

theorem addjobAux_nextjid {p : Int} {st : JobState} {c : String} {njid : Int} :
    ∀ {l l' : List Job} {n : Int}, addjobAux p st c njid l = some (l', n) →
      n = if njid + 1 > MAXJOBS then 1 else njid + 1 := by
  intro l
  induction l with
  | nil => intro l' n h; simp [addjobAux] at h
  | cons j rest ih =>
    intro l' n h
    by_cases hj : j.pid = 0
    · simp [addjobAux, hj] at h
      exact h.2.symm
    · simp [addjobAux, hj] at h
      obtain ⟨r, hr, hl⟩ := h
      exact ih (by rw [hr])

/-- C3 fails on the code: starting from the fresh shell, spawn sixteen
background jobs (jids 1..16, `nextjid` wrapped to 1), then reap the job with
jid 1.  `deletejob` recomputes `nextjid = maxjid + 1 = 17` without wrapping,
so the next insert allocates jid 17 — while the claimed relation
`wrap(max live jid + 1)` gives 1. -/
theorem claim_C3_counterexample :
    Reachable ⟨c3state, none⟩ ∧
    c3state.nextjid = 17 ∧
    maxjid c3state.jobs = 16 ∧
    (if maxjid c3state.jobs + 1 > MAXJOBS then 1
      else maxjid c3state.jobs + 1) = 1 ∧
    c3state.nextjid ≠ 1 ∧
    getjobpid (addjob c3state 300 JobState.BG "x\n").1.jobs 300 =
      some (Job.mk 300 17 JobState.BG "x\n") := by
  refine ⟨?_, by decide, by decide, by decide, by decide, by decide⟩
  have h1 : Reachable ⟨c3full, none⟩ :=
    reachable_foldl_addB _ Relation.ReflTransGen.refl
  exact reachable_delB h1 201

/-- C3 amended: every removal re-establishes `nextjid = (max live job id) + 1`
without any wrap (so `nextjid` may become 17 on a 16-slot table); the wrap to
1 happens only inside `insert`, which assigns the counter's current value and
then wraps the incremented counter when it exceeds the capacity. -/
theorem claim_C3_amended :
    (∀ (s : Shell) (p : Int), (deletejob s p).2 = true →
        (deletejob s p).1.nextjid = maxjid (deletejob s p).1.jobs + 1) ∧
    (∀ (s : Shell) (p : Int) (st : JobState) (c : String),
        (addjob s p st c).2 = true →
        (addjob s p st c).1.nextjid =
          (if s.nextjid + 1 > MAXJOBS then 1 else s.nextjid + 1)) := by
  constructor
  · intro s p h
    by_cases hp : p < 1
    · simp [deletejob, hp] at h
    · cases hl : deletejobAux p s.jobs with
      | none => simp [deletejob, hp, hl] at h
      | some l => simp [deletejob, hp, hl]
  · intro s p st c h
    by_cases hp : p < 1
    · simp [addjob, hp] at h
    · cases hl : addjobAux p st c s.nextjid s.jobs with
      | none => simp [addjob, hp, hl] at h
      | some r =>
        rcases r with ⟨l, n⟩
        simp [addjob, hp, hl]
        exact addjobAux_nextjid hl

/-- Witness for C3 (amended): a successful delete on `wshell` and a
successful insert on the fresh shell. -/
theorem claim_C3_witness :
    (deletejob wshell 7).1.nextjid = maxjid (deletejob wshell 7).1.jobs + 1 ∧
    (addjob wshell 9 JobState.BG "y\n").1.nextjid =
      (if wshell.nextjid + 1 > MAXJOBS then 1 else wshell.nextjid + 1) :=
  ⟨claim_C3_amended.1 wshell 7 (by decide),
   claim_C3_amended.2 wshell 9 JobState.BG "y\n" (by decide)⟩

/-! ## C4: uniqueness of assigned job ids fails after a wrap -/

/-- C4 is right and the code is wrong (the spec itself flags this wraparound
collision as a latent bug, section 9): `c4pre` is reachable — fifteen
background spawns, thirteen reaps, one more spawn taking jid 16 and wrapping
`nextjid` to 1 — and still holds a live job with jid 1 (pid 101).  The next
insert (pid 117) succeeds and assigns jid 1 again: after it, two distinct
live jobs carry job id 1, violating uniqueness at assignment time
(positivity does hold: ids assigned are always at least 1). -/
theorem claim_C4_duplicate_jid :
    Reachable ⟨c4pre, none⟩ ∧
    c4pre.nextjid = 1 ∧
    getjobpid c4pre.jobs 101 = some (Job.mk 101 1 JobState.BG "x\n") ∧
    (addjob c4pre 117 JobState.BG "x\n").2 = true ∧
    ((addjob c4pre 117 JobState.BG "x\n").1.jobs.filter
        (fun j => decide (j.pid ≠ 0 ∧ j.jid = 1))).length = 2 := by
  refine ⟨?_, by decide, by decide, by decide, by decide⟩
  have h1 : Reachable ⟨c4base, none⟩ :=
    reachable_foldl_addB _ Relation.ReflTransGen.refl
  have h2 : Reachable ⟨c4afterDel, none⟩ := reachable_foldl_delB _ h1
  exact reachable_addB h2 116

/-! ## C1 machinery: counting foreground slots across the operations -/

theorem fgCount_cons (j : Job) (rest : List Job) :
    fgCount (j :: rest) =
      (if j.state = JobState.FG then 1 else 0) + fgCount rest := by
  by_cases hj : j.state = JobState.FG
  · simp [fgCount, List.filter, hj, Nat.add_comm]
  · simp [fgCount, List.filter, hj]

theorem fgCount_zero_not_fg {l : List Job} (h : fgCount l = 0) :
    ∀ j ∈ l, j.state ≠ JobState.FG := by
  induction l with
  | nil => intro j hj; simp at hj
  | cons a rest ih =>
    rw [fgCount_cons] at h
    by_cases ha : a.state = JobState.FG
    · simp [ha] at h
    · simp [ha] at h
      intro j hj
      rcases List.mem_cons.mp hj with rfl | hmem
      · exact ha
      · exact ih h j hmem

theorem exists_find?_of_fgCount_pos {l : List Job} (h : fgCount l ≠ 0) :
    ∃ j, l.find? (fun j => decide (j.state = JobState.FG)) = some j ∧
      j.state = JobState.FG := by
  induction l with
  | nil => simp [fgCount] at h
  | cons a rest ih =>
    by_cases ha : a.state = JobState.FG
    · exact ⟨a, List.find?_cons_of_pos _ (by simp [ha]), ha⟩
    · rw [fgCount_cons] at h
      simp [ha] at h
      obtain ⟨j, hf, hst⟩ := ih h
      exact ⟨j, by rw [List.find?_cons_of_neg _ (by simp [ha])]; exact hf, hst⟩

theorem addjobAux_mem {p : Int} {st : JobState} {c : String} {njid : Int} :
    ∀ {l l' : List Job} {n : Int}, addjobAux p st c njid l = some (l', n) →
      ∀ j ∈ l', j ∈ l ∨ j = Job.mk p njid st c := by
  intro l
  induction l with
  | nil => intro l' n h; simp [addjobAux] at h
  | cons a rest ih =>
    intro l' n h j hj
    by_cases ha : a.pid = 0
    · simp [addjobAux, ha] at h
      rcases h with ⟨rfl, rfl⟩
      rcases List.mem_cons.mp hj with rfl | hmem
      · exact Or.inr rfl
      · exact Or.inl (List.mem_cons_of_mem _ hmem)
    · cases haux : addjobAux p st c njid rest with
      | none => simp [addjobAux, ha, haux] at h
      | some r =>
        rcases r with ⟨l2, n2⟩
        simp [addjobAux, ha, haux] at h
        rcases h with ⟨rfl, rfl⟩
        rcases List.mem_cons.mp hj with rfl | hmem
        · exact Or.inl (List.mem_cons_self _ _)
        · rcases ih haux j hmem with hin | hnew
          · exact Or.inl (List.mem_cons_of_mem _ hin)
          · exact Or.inr hnew

theorem addjobAux_fgCount {p : Int} {st : JobState} {c : String} {njid : Int} :
    ∀ {l l' : List Job} {n : Int}, addjobAux p st c njid l = some (l', n) →
      fgCount l' ≤ fgCount l + (if st = JobState.FG then 1 else 0) := by
  intro l
  induction l with
  | nil => intro l' n h; simp [addjobAux] at h
  | cons a rest ih =>
    intro l' n h
    by_cases ha : a.pid = 0
    · simp [addjobAux, ha] at h
      rcases h with ⟨rfl, rfl⟩
      rw [fgCount_cons, fgCount_cons]
      by_cases hst : st = JobState.FG <;>
        by_cases haf : a.state = JobState.FG <;>
        simp [hst, haf] <;> omega
    · cases haux : addjobAux p st c njid rest with
      | none => simp [addjobAux, ha, haux] at h
      | some r =>
        rcases r with ⟨l2, n2⟩
        simp [addjobAux, ha, haux] at h
        rcases h with ⟨rfl, rfl⟩
        rw [fgCount_cons, fgCount_cons]
        have := ih haux
        omega

theorem addjob_mem (s : Shell) (p : Int) (st : JobState) (c : String) :
    ∀ j ∈ (addjob s p st c).1.jobs, j ∈ s.jobs ∨ j = Job.mk p s.nextjid st c := by
  intro j hj
  by_cases hp : p < 1
  · simp [addjob, hp] at hj
    exact Or.inl hj
  · cases hl : addjobAux p st c s.nextjid s.jobs with
    | none =>
        simp [addjob, hp, hl] at hj
        exact Or.inl hj
    | some r =>
        rcases r with ⟨l, n⟩
        simp [addjob, hp, hl] at hj
        exact addjobAux_mem hl j hj

theorem addjob_fgCount (s : Shell) (p : Int) (st : JobState) (c : String) :
    fgCount (addjob s p st c).1.jobs ≤
      fgCount s.jobs + (if st = JobState.FG then 1 else 0) := by
  by_cases hp : p < 1
  · simp [addjob, hp]
  · cases hl : addjobAux p st c s.nextjid s.jobs with
    | none => simp [addjob, hp, hl]
    | some r =>
        rcases r with ⟨l, n⟩
        simp only [addjob, hp, if_false, hl]
        exact addjobAux_fgCount hl

theorem deletejobAux_mem {p : Int} :
    ∀ {l l' : List Job}, deletejobAux p l = some l' →
      ∀ j ∈ l', j ∈ l ∨ j = emptyJob := by
  intro l
  induction l with
  | nil => intro l' h; simp [deletejobAux] at h
  | cons a rest ih =>
    intro l' h j hj
    by_cases ha : a.pid = p
    · simp [deletejobAux, ha] at h
      subst h
      rcases List.mem_cons.mp hj with rfl | hmem
      · exact Or.inr rfl
      · exact Or.inl (List.mem_cons_of_mem _ hmem)
    · simp [deletejobAux, ha] at h
      obtain ⟨l2, hr, rfl⟩ := h
      rcases List.mem_cons.mp hj with rfl | hmem
      · exact Or.inl (List.mem_cons_self _ _)
      · rcases ih hr j hmem with hin | hnew
        · exact Or.inl (List.mem_cons_of_mem _ hin)
        · exact Or.inr hnew

theorem deletejobAux_fgCount {p : Int} :
    ∀ {l l' : List Job}, deletejobAux p l = some l' →
      fgCount l' ≤ fgCount l := by
  intro l
  induction l with
  | nil => intro l' h; simp [deletejobAux] at h
  | cons a rest ih =>
    intro l' h
    by_cases ha : a.pid = p
    · simp [deletejobAux, ha] at h
      subst h
      rw [fgCount_cons, fgCount_cons]
      have he : (if emptyJob.state = JobState.FG then 1 else 0) = 0 := rfl
      rw [he]
      omega
    · simp [deletejobAux, ha] at h
      obtain ⟨l2, hr, rfl⟩ := h
      rw [fgCount_cons, fgCount_cons]
      have := ih hr
      omega

theorem deletejob_mem (s : Shell) (p : Int) :
    ∀ j ∈ (deletejob s p).1.jobs, j ∈ s.jobs ∨ j = emptyJob := by
  intro j hj
  by_cases hp : p < 1
  · simp [deletejob, hp] at hj
    exact Or.inl hj
  · cases hl : deletejobAux p s.jobs with
    | none =>
        simp [deletejob, hp, hl] at hj
        exact Or.inl hj
    | some l =>
        simp [deletejob, hp, hl] at hj
        exact deletejobAux_mem hl j hj

theorem deletejob_fgCount (s : Shell) (p : Int) :
    fgCount (deletejob s p).1.jobs ≤ fgCount s.jobs := by
  by_cases hp : p < 1
  · simp [deletejob, hp]
  · cases hl : deletejobAux p s.jobs with
    | none => simp [deletejob, hp, hl]
    | some l =>
        simp only [deletejob, hp, if_false, hl]
        exact deletejobAux_fgCount hl

theorem mem_setFirstState {q : Job → Bool} {st : JobState} :
    ∀ {l : List Job} (j' : Job), j' ∈ setFirstState q st l →
      j' ∈ l ∨ ∃ j, j ∈ l ∧ j' = { j with state := st } := by
  intro l
  induction l with
  | nil => intro j' h; simp [setFirstState] at h
  | cons a rest ih =>
    intro j' h
    by_cases ha : q a = true
    · simp [setFirstState, ha] at h
      rcases h with rfl | hmem
      · exact Or.inr ⟨a, by simp, rfl⟩
      · exact Or.inl (by simp [hmem])
    · simp [setFirstState, ha] at h
      rcases h with rfl | hmem
      · exact Or.inl (by simp)
      · rcases ih j' hmem with h1 | ⟨j, hj, he⟩
        · exact Or.inl (by simp [h1])
        · exact Or.inr ⟨j, by simp [hj], he⟩

theorem setFirstState_find?_mem {q : Job → Bool} {st : JobState} {job : Job} :
    ∀ {l : List Job}, l.find? q = some job →
      ∀ j' ∈ setFirstState q st l, j' ∈ l ∨ j' = { job with state := st } := by
  intro l
  induction l with
  | nil => intro h; simp at h
  | cons a rest ih =>
    intro h j' hj'
    by_cases ha : q a = true
    · rw [List.find?_cons_of_pos _ ha] at h
      injection h with h
      subst h
      simp [setFirstState, ha] at hj'
      rcases hj' with rfl | hmem
      · exact Or.inr rfl
      · exact Or.inl (List.mem_cons_of_mem _ hmem)
    · rw [List.find?_cons_of_neg _ ha] at h
      simp [setFirstState, ha] at hj'
      rcases hj' with rfl | hmem
      · exact Or.inl (by simp)
      · rcases ih h j' hmem with h1 | h2
        · exact Or.inl (by simp [h1])
        · exact Or.inr h2

theorem setFirstState_fgCount_le_succ (q : Job → Bool) (st : JobState) :
    ∀ l : List Job, fgCount (setFirstState q st l) ≤ fgCount l + 1 := by
  intro l
  induction l with
  | nil => simp [setFirstState, fgCount]
  | cons a rest ih =>
    by_cases ha : q a = true
    · simp only [setFirstState, ha, if_true]
      rw [fgCount_cons, fgCount_cons]
      by_cases hst : st = JobState.FG <;>
        by_cases haf : a.state = JobState.FG <;>
        simp [hst, haf] <;> omega
    · simp [setFirstState, ha, fgCount_cons]
      omega

theorem setFirstState_fgCount_of_ne (q : Job → Bool) {st : JobState}
    (hst : st ≠ JobState.FG) :
    ∀ l : List Job, fgCount (setFirstState q st l) ≤ fgCount l := by
  intro l
  induction l with
  | nil => simp [setFirstState]
  | cons a rest ih =>
    by_cases ha : q a = true
    · simp only [setFirstState, ha, if_true]
      rw [fgCount_cons, fgCount_cons]
      simp only [hst, if_false]
      omega
    · simp [setFirstState, ha, fgCount_cons]
      omega

theorem getjobjid_eq_find {l : List Job} {x : Int} {job : Job}
    (h : getjobjid l x = some job) :
    l.find? (fun j => decide (j.jid = x)) = some job := by
  by_cases hx : x < 1
  · simp [getjobjid, hx] at h
  · simpa [getjobjid, hx] using h

theorem getjobpid_eq_find {l : List Job} {p : Int} {job : Job}
    (h : getjobpid l p = some job) :
    l.find? (fun j => decide (j.pid = p)) = some job := by
  by_cases hp : p < 1
  · simp [getjobpid, hp] at h
  · simpa [getjobpid, hp] using h

theorem bgfgAct_cases (isbg : Bool) (job : Job) (upd : JobState → List Job)
    (l : List Job) :
    ((bgfgAct isbg job upd l).jobs = l ∧ (bgfgAct isbg job upd l).wait = none) ∨
    ((bgfgAct isbg job upd l).jobs = upd JobState.BG ∧
      (bgfgAct isbg job upd l).wait = none) ∨
    ((bgfgAct isbg job upd l).jobs = upd JobState.FG ∧
      (bgfgAct isbg job upd l).wait = some job.pid) := by
  cases isbg with
  | true =>
    by_cases hST : job.state = JobState.ST
    · exact Or.inr (Or.inl (by simp [bgfgAct, hST]))
    · exact Or.inl (by simp [bgfgAct, hST])
  | false =>
    by_cases hST : job.state = JobState.ST
    · exact Or.inr (Or.inr (by simp [bgfgAct, hST]))
    · by_cases hBG : job.state = JobState.BG
      · exact Or.inr (Or.inr (by simp [bgfgAct, hST, hBG]))
      · exact Or.inl (by simp [bgfgAct, hST, hBG])

theorem do_bgfg_cases (cmd : String) (arg : Option String) (l : List Job) :
    ((do_bgfg cmd arg l).jobs = l ∧ (do_bgfg cmd arg l).wait = none) ∨
    (∃ q job, l.find? q = some job ∧
      (do_bgfg cmd arg l).jobs = setFirstState q JobState.BG l ∧
      (do_bgfg cmd arg l).wait = none) ∨
    (∃ q job, l.find? q = some job ∧
      (do_bgfg cmd arg l).jobs = setFirstState q JobState.FG l ∧
      (do_bgfg cmd arg l).wait = some job.pid) := by
  cases arg with
  | none => exact Or.inl ⟨rfl, rfl⟩
  | some a =>
    by_cases hj : argIsJid a = true
    · by_cases hn : isnumberL a.data.tail = true
      · cases hf : getjobjid l (atoiL a.data.tail) with
        | none => exact Or.inl (by simp [do_bgfg, hj, hn, hf])
        | some job =>
          have hfind := getjobjid_eq_find hf
          have key : do_bgfg cmd (some a) l =
              bgfgAct (decide (cmd = "bg")) job
                (fun st =>
                  setFirstState (fun j => decide (j.jid = atoiL a.data.tail)) st l)
                l := by
            simp [do_bgfg, hj, hn, hf]
          rcases bgfgAct_cases (decide (cmd = "bg")) job
              (fun st =>
                setFirstState (fun j => decide (j.jid = atoiL a.data.tail)) st l)
              l with ⟨h1, h2⟩ | ⟨h1, h2⟩ | ⟨h1, h2⟩
          · exact Or.inl ⟨by rw [key]; exact h1, by rw [key]; exact h2⟩
          · exact Or.inr (Or.inl ⟨_, job, hfind,
              by rw [key]; exact h1, by rw [key]; exact h2⟩)
          · exact Or.inr (Or.inr ⟨_, job, hfind,
              by rw [key]; exact h1, by rw [key]; exact h2⟩)
      · exact Or.inl (by simp [do_bgfg, hj, hn])
    · by_cases hn : isnumberL a.data = true
      · cases hf : getjobpid l (atoiL a.data) with
        | none => exact Or.inl (by simp [do_bgfg, hj, hn, hf])
        | some job =>
          have hfind := getjobpid_eq_find hf
          have key : do_bgfg cmd (some a) l =
              bgfgAct (decide (cmd = "bg")) job
                (fun st =>
                  setFirstState (fun j => decide (j.pid = atoiL a.data)) st l)
                l := by
            simp [do_bgfg, hj, hn, hf]
          rcases bgfgAct_cases (decide (cmd = "bg")) job
              (fun st =>
                setFirstState (fun j => decide (j.pid = atoiL a.data)) st l)
              l with ⟨h1, h2⟩ | ⟨h1, h2⟩ | ⟨h1, h2⟩
          · exact Or.inl ⟨by rw [key]; exact h1, by rw [key]; exact h2⟩
          · exact Or.inr (Or.inl ⟨_, job, hfind,
              by rw [key]; exact h1, by rw [key]; exact h2⟩)
          · exact Or.inr (Or.inr ⟨_, job, hfind,
              by rw [key]; exact h1, by rw [key]; exact h2⟩)
      · exact Or.inl (by simp [do_bgfg, hj, hn])

theorem sigchld_step_fgCount (s : Shell) (p : Int) (st : Status) :
    fgCount (sigchld_step s p st).1.jobs ≤ fgCount s.jobs := by
  cases st with
  | exited c => exact deletejob_fgCount s p
  | signaled sig => exact deletejob_fgCount s p
  | stopped sig => exact Nat.le_refl _

theorem sigchld_step_mem (s : Shell) (p : Int) (st : Status) :
    ∀ j ∈ (sigchld_step s p st).1.jobs, j ∈ s.jobs ∨ j = emptyJob := by
  cases st with
  | exited c => exact deletejob_mem s p
  | signaled sig => exact deletejob_mem s p
  | stopped sig => exact fun j hj => Or.inl hj

theorem sigtstp_fgCount (l : List Job) :
    fgCount (sigtstp_handler l) ≤ fgCount l := by
  unfold sigtstp_handler
  by_cases h0 : fgpid l = 0
  · simp [h0]
  · cases hg : getjobpid l (fgpid l) with
    | none => simp [h0, hg]
    | some j =>
        simp only [h0, if_false, hg]
        exact setFirstState_fgCount_of_ne _ (by decide) l

theorem sigtstp_mem (l : List Job) :
    ∀ j ∈ sigtstp_handler l,
      j ∈ l ∨ ∃ a, a ∈ l ∧ j = { a with state := JobState.ST } := by
  unfold sigtstp_handler
  by_cases h0 : fgpid l = 0
  · simp [h0]
    exact fun j hj => Or.inl hj
  · cases hg : getjobpid l (fgpid l) with
    | none =>
        simp [h0, hg]
        exact fun j hj => Or.inl hj
    | some j =>
        simp only [h0, if_false, hg]
        exact fun j' hj' => mem_setFirstState j' hj'

theorem inv_init : Inv ⟨initShell, none⟩ := by
  refine ⟨by decide, fun _ => by decide, ?_⟩
  intro p hp
  simp at hp

theorem step_preserves_inv {s s' : SState} (h : Inv s) (hs : Step s s') :
    Inv s' := by
  obtain ⟨h1, h2, h3⟩ := h
  cases hs with
  | evalBG p c hw =>
    have h0 : fgCount s.shell.jobs = 0 := h2 hw
    have hle := addjob_fgCount s.shell p JobState.BG c
    have e : (if JobState.BG = JobState.FG then 1 else 0) = 0 := rfl
    rw [e] at hle
    refine ⟨?_, fun _ => ?_, ?_⟩
    · dsimp only
      omega
    · dsimp only
      omega
    · intro q hq
      exact absurd hq (by simp)
  | evalFG p c hw =>
    have h0 : fgCount s.shell.jobs = 0 := h2 hw
    have hle := addjob_fgCount s.shell p JobState.FG c
    have e : (if JobState.FG = JobState.FG then 1 else 0) = 1 := rfl
    rw [e] at hle
    refine ⟨?_, ?_, ?_⟩
    · dsimp only
      omega
    · intro hq
      exact absurd hq (by simp)
    · intro q hq
      dsimp only at hq ⊢
      injection hq with hpq
      subst hpq
      intro j hj hst
      rcases addjob_mem s.shell p JobState.FG c j hj with hmem | rfl
      · exact absurd hst (fgCount_zero_not_fg h0 j hmem)
      · rfl
  | bgfg cmd arg hcmd hw =>
    have h0 : fgCount s.shell.jobs = 0 := h2 hw
    rcases do_bgfg_cases cmd arg s.shell.jobs with
        ⟨hjobs, hwait⟩ | ⟨q, job, hfind, hjobs, hwait⟩ | ⟨q, job, hfind, hjobs, hwait⟩
    · refine ⟨?_, fun _ => ?_, ?_⟩
      · dsimp only
        rw [hjobs]
        omega
      · dsimp only
        rw [hjobs]
        exact h0
      · intro qq hq
        dsimp only at hq
        rw [hwait] at hq
        exact absurd hq (by simp)
    · have hle : fgCount (setFirstState q JobState.BG s.shell.jobs) ≤
          fgCount s.shell.jobs := setFirstState_fgCount_of_ne q (by decide) _
      refine ⟨?_, fun _ => ?_, ?_⟩
      · dsimp only
        rw [hjobs]
        omega
      · dsimp only
        rw [hjobs]
        omega
      · intro qq hq
        dsimp only at hq
        rw [hwait] at hq
        exact absurd hq (by simp)
    · have hle := setFirstState_fgCount_le_succ q JobState.FG s.shell.jobs
      refine ⟨?_, ?_, ?_⟩
      · dsimp only
        rw [hjobs]
        omega
      · intro hq
        dsimp only at hq
        rw [hwait] at hq
        exact absurd hq (by simp)
      · intro qq hq
        dsimp only at hq ⊢
        rw [hwait] at hq
        injection hq with hqq
        subst hqq
        rw [hjobs]
        intro j hj hst
        rcases setFirstState_find?_mem hfind j hj with hmem | rfl
        · exact absurd hst (fgCount_zero_not_fg h0 j hmem)
        · rfl
  | chld p st =>
    have hle := sigchld_step_fgCount s.shell p st
    refine ⟨?_, ?_, ?_⟩
    · dsimp only
      omega
    · intro hw'
      dsimp only at hw' ⊢
      have h0 := h2 hw'
      omega
    · intro q hq
      dsimp only at hq ⊢
      have hFG := h3 q hq
      intro j hj hst
      rcases sigchld_step_mem s.shell p st j hj with hmem | rfl
      · exact hFG j hmem hst
      · exact absurd hst (by decide)
  | tstp =>
    have hle := sigtstp_fgCount s.shell.jobs
    refine ⟨?_, ?_, ?_⟩
    · dsimp only
      omega
    · intro hw'
      dsimp only at hw' ⊢
      have h0 := h2 hw'
      omega
    · intro q hq
      dsimp only at hq ⊢
      have hFG := h3 q hq
      intro j hj hst
      rcases sigtstp_mem s.shell.jobs j hj with hmem | ⟨a, ha, rfl⟩
      · exact hFG j hmem hst
      · simp at hst
  | waitDone p hwp hfg =>
    have hFG := h3 p hwp
    have hzero : fgCount s.shell.jobs = 0 := by
      by_contra hnz
      obtain ⟨j, hfind, hst⟩ := exists_find?_of_fgCount_pos hnz
      have hj : j ∈ s.shell.jobs := List.mem_of_find?_eq_some hfind
      have hfp : fgpid s.shell.jobs = j.pid := by
        simp [fgpid, hfind]
      apply hfg
      rw [hfp]
      exact hFG j hj hst
    refine ⟨?_, fun _ => hzero, ?_⟩
    · dsimp only
      omega
    · intro q hq
      exact absurd hq (by simp)

theorem inv_of_reachable {s : SState} (h : Reachable s) : Inv s := by
  induction h with
  | refl => exact inv_init
  | tail hsteps hstep ih => exact step_preserves_inv ih hstep

theorem live_fg_le_fgCount (l : List Job) :
    (l.filter (fun j => decide (j.pid ≠ 0 ∧ j.state = JobState.FG))).length ≤
      fgCount l := by
  induction l with
  | nil => simp
  | cons a rest ih =>
    rw [fgCount_cons]
    by_cases ha : a.pid ≠ 0 ∧ a.state = JobState.FG
    · rw [List.filter_cons_of_pos (by simp [ha])]
      simp only [List.length_cons, ha.2, if_true]
      omega
    · rw [List.filter_cons_of_neg (by simp [ha])]
      omega

/-! ## C1: at most one foreground job in every reachable state -/

/-- C1: in every state reachable from the initialized empty table via the
operations the shell actually performs — spawns registered with `addjob`
(foreground spawns then blocking in `waitfg`), reaps through
`sigchld_handler`/`deletejob`, the `do_bgfg` state changes, the
`sigtstp_handler` stop transition, and `waitfg` returning once its pid is no
longer the foreground pid — at most one live job (pid not 0) has state FG. -/
theorem claim_C1_at_most_one_foreground {s : SState} (h : Reachable s) :
    (s.shell.jobs.filter
        (fun j => decide (j.pid ≠ 0 ∧ j.state = JobState.FG))).length ≤ 1 := by
  have hinv := inv_of_reachable h
  have hle := live_fg_le_fgCount s.shell.jobs
  have h1 := hinv.1
  omega

/-- Witness for C1: the initial state is reachable, and its table holds no
foreground job at all. -/
theorem claim_C1_witness :
    ((SState.mk initShell none).shell.jobs.filter
        (fun j => decide (j.pid ≠ 0 ∧ j.state = JobState.FG))).length ≤ 1 :=
  claim_C1_at_most_one_foreground Relation.ReflTransGen.refl

end Tsh
